import Mathlib

/-!
Shallow embedding of the leader-election core of CeresDB/ceresmeta
(server/member/member.go) and of the etcd-backed generic KV storage
(server/storage/etcd_kv.go).

External collaborators (the etcd coordination store, the protobuf codec of
the ceresdbproto Member message, Go contexts) are modelled at their
interface boundary: each store call's reply is an explicit input of the
embedded function, and the store's documented semantics (conditional
transactions, range reads with a limit) are small executable models.
-/

namespace CeresMeta

/-! ## Leader record codec

member.go Marshal serializes a metapb.Member protobuf message holding the
member's name (string, field 1) and id (uint64, field 2); GetLeader
deserializes it with proto.Unmarshal.  The message type lives in the
external ceresdbproto repository; we embed the protobuf wire format for it:
a base-128 varint with continuation bits, field 1 length-delimited
(tag byte 10), field 2 varint (tag byte 16).  Strings are byte lists. -/

/-- A member identity: id (uint64) and name (string as bytes), the payload
of member.go Marshal (member.go lines 190-201). -/
structure MemberId where
  id : Nat
  name : List Nat
  deriving DecidableEq, Repr

/-- Little-endian base-128 varint encoding with continuation bit 128. -/
def encodeVarint (n : Nat) : List Nat :=
  if n < 128 then [n] else (n % 128 + 128) :: encodeVarint (n / 128)
  decreasing_by exact Nat.div_lt_self (by omega) (by omega)

/-- Varint decoding; returns the value and the remaining bytes, or none on
a truncated varint. -/
def decodeVarint : List Nat → Option (Nat × List Nat)
  | [] => none
  | b :: rest =>
    if b < 128 then some (b, rest)
    else
      match decodeVarint rest with
      | none => none
      | some (n, r) => some (n * 128 + (b - 128), r)

/-- Wire encoding of a Member message: field 1 (name, length-delimited,
tag 10) then field 2 (id, varint, tag 16); the model of proto.Marshal used
by member.go Marshal. -/
def encodeMember (m : MemberId) : List Nat :=
  10 :: (encodeVarint m.name.length ++ m.name ++ 16 :: encodeVarint m.id)

/-- Decoding of a Member message, the model of proto.Unmarshal as used by
member.go GetLeader; none on any malformed input. -/
def decodeMember (bs : List Nat) : Option MemberId :=
  match bs with
  | 10 :: rest =>
    match decodeVarint rest with
    | none => none
    | some (len, r1) =>
      if len ≤ r1.length then
        match r1.drop len with
        | 16 :: r2 =>
          match decodeVarint r2 with
          | none => none
          | some (id, r3) => if r3 = [] then some ⟨id, r1.take len⟩ else none
        | _ => none
      else none
  | _ => none

/-! ## member.go data model -/

/-- An opaque error returned by the coordination store (etcd client). -/
structure StoreErr where
  code : Nat
  deriving DecidableEq, Repr

/-- One key-value pair of an etcd Get reply, restricted to the fields
member.go GetLeader reads: Value and ModRevision. -/
structure EtcdKV where
  value : List Nat
  modRevision : Int
  deriving DecidableEq, Repr

/-- Typed errors of the member package (member.go / error.go). -/
inductive MemberError
  | getLeaderFailed (cause : StoreErr)
  | multipleLeader
  | invalidLeaderValue
  | resetLeaderFailed (cause : StoreErr)
  | leaseGrantFailed (cause : StoreErr)
  | txnPutLeader (cause : Option StoreErr)
  deriving DecidableEq, Repr

/-- Result of GetLeader: Leader is nil (none) when no leader is found;
Revision is the ModRevision of the stored record (member.go 203-206). -/
structure GetLeaderResp where
  leader : Option MemberId
  revision : Int
  deriving DecidableEq, Repr

/-- member.go formatLeaderKey: the single well-known leader key under the
root path. -/
def formatLeaderKey (rootPath : String) : String :=
  rootPath ++ "/members/leader"

/-- member.go GetLeader (lines 53-73), as a function of the store's Get
reply for the leader key: an error, or the list of key-value pairs. -/
def getLeader (reply : Except StoreErr (List EtcdKV)) :
    Except MemberError GetLeaderResp :=
  match reply with
  | .error e => .error (.getLeaderFailed e)
  | .ok kvs =>
    if 1 < kvs.length then .error .multipleLeader
    else
      match kvs with
      | [] => .ok ⟨none, 0⟩
      | kv :: _ =>
        match decodeMember kv.value with
        | none => .error .invalidLeaderValue
        | some m => .ok ⟨some m, kv.modRevision⟩

/-- member.go ResetLeader (lines 75-82): an unconditional Delete of the
leader key.  The state is the leader key's stored value (none when absent);
deleteErr is the store's reply to the Delete call.  Returns the state after
the call together with ResetLeader's returned error. -/
def resetLeader (st : Option (List Nat)) (deleteErr : Option StoreErr) :
    Option (List Nat) × Except MemberError Unit :=
  match deleteErr with
  | some e => (st, .error (.resetLeaderFailed e))
  | none => (none, .ok ())

/-! ## member.go WaitForLeaderChange (lines 84-125)

The watch is modelled at the interface boundary: each call to
watcher.Watch(ctx, leaderKey, WithRev(revision)) yields a finite stream
(list) of watch responses; the environment maps the index of the watch
invocation and the requested revision to that stream.  ctx.Done() is
sampled (the select with a default branch) after a stream ends or is broken
out of; the environment maps the invocation index to that sample.  The
outer retry loop is given fuel; running out of fuel models the call still
blocking, not a return. -/

/-- The type of one etcd watch event, restricted to what the code reads:
whether ev.Type is DELETE. -/
inductive EventType
  | put
  | del
  deriving DecidableEq, Repr

/-- One response on the watch channel: CompactRevision, Canceled, Events. -/
structure WatchResp where
  compactRevision : Int
  canceled : Bool
  events : List EventType
  deriving DecidableEq, Repr

/-- How one pass over the inner "for resp := range wch" loop ends. -/
inductive StreamStep
  | ret (o : Nat)
  | restart (rev : Int)
  | ended
  deriving DecidableEq, Repr

/-- How WaitForLeaderChange's execution ends in the model. -/
inductive WaitOutcome
  | leaderDeleted
  | watchCanceled
  | ctxCanceled
  | stillWaiting
  deriving DecidableEq, Repr

/-- The inner loop of WaitForLeaderChange over one watch stream
(member.go 96-117): a non-zero CompactRevision breaks out to rewatch from
the compact revision; Canceled returns; a DELETE event returns. -/
def processStream : List WatchResp → StreamStep
  | [] => .ended
  | r :: rest =>
    if r.compactRevision ≠ 0 then .restart r.compactRevision
    else if r.canceled then .ret 1
    else if r.events.contains .del then .ret 0
    else processStream rest

/-- member.go WaitForLeaderChange (lines 94-124): the outer loop reopens
the watch, at the compact revision after a compaction notice, at the same
revision after a bare stream close, stopping when ctx is done. -/
def waitForLeaderChange (fuel : Nat) (wch : Nat → Int → List WatchResp)
    (ctxDone : Nat → Bool) (i : Nat) (revision : Int) : WaitOutcome :=
  match fuel with
  | 0 => .stillWaiting
  | fuel + 1 =>
    match processStream (wch i revision) with
    | .ret 0 => .leaderDeleted
    | .ret _ => .watchCanceled
    | .restart newRev =>
      if ctxDone i then .ctxCanceled
      else waitForLeaderChange fuel wch ctxDone (i + 1) newRev
    | .ended =>
      if ctxDone i then .ctxCanceled
      else waitForLeaderChange fuel wch ctxDone (i + 1) revision

/-! ## member.go CampaignAndKeepLeader (lines 127-188) -/

/-- Why the ctx.Done channel of the context used by the monitoring loop can
close.  The context is the one built at member.go line 138 by
context.WithTimeout(ctx, m.rpcTimeout), so its Done channel closes either
when the caller cancels the parent context or when the rpcTimeout deadline
elapses. -/
inductive CtxDoneCause
  | callerCanceled
  | rpcTimeoutExceeded
  deriving DecidableEq, Repr

/-- One event observed by the monitoring loop's select (member.go 171-187):
either a ticker tick, on which the code reads the lease handle's liveness
flag and the store's own leader id, or the ctx.Done channel firing. -/
inductive LoopEvent
  | tick (leaseAlive : Bool) (etcdLeader : Nat)
  | ctxDone (cause : CtxDoneCause)
  deriving DecidableEq, Repr

/-- Which branch made the monitoring loop return. -/
inductive ExitReason
  | leaseExpired
  | etcdLeaderChanged
  | ctxEnded (cause : CtxDoneCause)
  deriving DecidableEq, Repr

/-- The monitoring loop (member.go 171-187): on each tick return when the
lease's liveness flag is false, else when the store's own leader differs
from the member's id; return when ctx.Done fires; keep looping otherwise.
none means the loop is still running after the given events. -/
def keepLeaderLoop (id : Nat) : List LoopEvent → Option ExitReason
  | [] => none
  | .ctxDone c :: _ => some (.ctxEnded c)
  | .tick alive eLeader :: rest =>
    if !alive then some .leaseExpired
    else if eLeader ≠ id then some .etcdLeaderChanged
    else keepLeaderLoop id rest

/-- An etcd transaction comparison, as built at member.go line 141:
clientv3.Compare(clientv3.CreateRevision(key), "=", rev). -/
inductive Cmp
  | createRevisionEq (key : String) (rev : Int)
  deriving DecidableEq, Repr

/-- An etcd transaction operation; the campaign path only builds
clientv3.OpPut(key, value, clientv3.WithLease(leaseId)). -/
inductive TxnOp
  | put (key : String) (value : List Nat) (leaseId : Int)
  deriving DecidableEq, Repr

/-- The conditional transaction Txn(ctx).If(cmp).Then(ops) committed by the
campaign path. -/
structure TxnRequest where
  cond : Cmp
  thenOps : List TxnOp
  deriving DecidableEq, Repr

/-- Store-side effects issued by CampaignAndKeepLeader, in program order:
the lease Grant, the conditional transaction, an attempt to Close the
lease, the start of the KeepAlive goroutine. -/
inductive Effect
  | leaseGrant (ttlSec : Int)
  | txn (req : TxnRequest)
  | leaseCloseAttempt
  | keepAliveStart
  deriving DecidableEq, Repr

/-- The environment of one CampaignAndKeepLeader execution: the store's
reply to the lease Grant, the granted lease id, the reply to the
transaction Commit (an error, or Succeeded), the reply to a lease Close,
and the sequence of events seen by the monitoring loop. -/
structure CampaignEnv where
  grantErr : Option StoreErr
  leaseId : Int
  txnReply : Except StoreErr Bool
  closeErr : Option StoreErr
  loopEvents : List LoopEvent
  deriving Repr

/-- The member manager's configuration fields read by the campaign path. -/
structure MemberCfg where
  id : Nat
  name : List Nat
  rootPath : String
  deriving DecidableEq, Repr

/-- How a CampaignAndKeepLeader execution ends: a non-nil error, a nil
return from the monitoring loop, or still inside the loop. -/
inductive CampaignOutcome
  | failed (e : MemberError)
  | returnedNil (r : ExitReason)
  | stillLeading
  deriving DecidableEq, Repr

/-- The conditional transaction built at member.go lines 141-146: if the
leader key's CreateRevision is 0 then put the serialized member identity
under the granted lease. -/
def campaignReq (m : MemberCfg) (leaseId : Int) : TxnRequest :=
  ⟨.createRevisionEq (formatLeaderKey m.rootPath) 0,
   [.put (formatLeaderKey m.rootPath) (encodeMember ⟨m.id, m.name⟩) leaseId]⟩

/-- member.go CampaignAndKeepLeader (lines 127-188) as a function of the
environment, returning the outcome and the ordered store-side effects
issued before the return.  Marshal (proto.Marshal of a Member message) is
total, matching the codec model.  On a transaction error or a failed
condition the lease Close is attempted and its error only logged; on a won
campaign the KeepAlive goroutine is started and the monitoring loop runs. -/
def campaignAndKeepLeader (m : MemberCfg) (leaseTTLSec : Int)
    (env : CampaignEnv) : CampaignOutcome × List Effect :=
  match env.grantErr with
  | some e => (.failed (.leaseGrantFailed e), [.leaseGrant leaseTTLSec])
  | none =>
    let req := campaignReq m env.leaseId
    match env.txnReply with
    | .error e =>
      (.failed (.txnPutLeader (some e)),
       [.leaseGrant leaseTTLSec, .txn req, .leaseCloseAttempt])
    | .ok false =>
      (.failed (.txnPutLeader none),
       [.leaseGrant leaseTTLSec, .txn req, .leaseCloseAttempt])
    | .ok true =>
      match keepLeaderLoop m.id env.loopEvents with
      | none =>
        (.stillLeading, [.leaseGrant leaseTTLSec, .txn req, .keepAliveStart])
      | some r =>
        (.returnedNil r, [.leaseGrant leaseTTLSec, .txn req, .keepAliveStart])

/-! ## Serialized execution of racing campaign transactions

The spec delegates linearizable ordering to the coordination store: racing
transactions commit in some serial order.  The store state for the single
leader key is its value and CreateRevision when present, plus the next
revision to assign; a transaction's condition is evaluated against the
state and its puts applied only when the condition holds. -/

/-- The coordination store's state for the leader key: the stored value
with its CreateRevision when the key exists, and the next revision the
store will assign (revisions start at 1 in etcd). -/
structure LeaderStore where
  value : Option (List Nat × Int)
  nextRev : Int
  deriving DecidableEq, Repr

/-- Evaluation of a CreateRevision comparison: an absent key has
CreateRevision 0. -/
def condHolds (st : LeaderStore) : Cmp → Bool
  | .createRevisionEq _ r =>
    (match st.value with
     | none => (0 : Int)
     | some vc => vc.2) == r

/-- Application of a transaction's then-branch puts to the store state. -/
def applyOps (st : LeaderStore) (ops : List TxnOp) : LeaderStore :=
  ops.foldl
    (fun s op =>
      match op with
      | .put _ v _ => ⟨some (v, s.nextRev), s.nextRev + 1⟩)
    st

/-- One serialized transaction commit: Succeeded together with the next
store state. -/
def applyTxn (st : LeaderStore) (t : TxnRequest) : Bool × LeaderStore :=
  if condHolds st t.cond then (true, applyOps st t.thenOps) else (false, st)

/-- Serialized execution of a list of transactions, returning each commit's
Succeeded flag in order. -/
def runTxns (st : LeaderStore) : List TxnRequest → List Bool
  | [] => []
  | t :: ts =>
    let r := applyTxn st t
    r.1 :: runTxns r.2 ts

/-- A campaign-shaped transaction: the condition requires CreateRevision 0
and the then-branch is a non-empty list of puts. -/
def isCampaignTxn (t : TxnRequest) : Bool :=
  (match t.cond with
   | .createRevisionEq _ r => r == 0) && !t.thenOps.isEmpty

/-- The effects of a campaign execution that write to the leader key: only
the conditional transaction writes it. -/
def writeEffects (es : List Effect) : List Effect :=
  es.filter fun e =>
    match e with
    | .txn _ => true
    | _ => false

/-! ## etcd_kv.go LoadRange (lines 55-75)

Go strings are byte sequences and etcd orders keys bytewise, so keys and
values are byte lists here.  The etcd server's Get with WithRange(endKey)
and WithLimit(limit) returns the stored pairs whose key lies in
[key, endKey), at most limit of them; per clientv3.WithLimit, limit 0
means no limit. -/

/-- Bytewise lexicographic strict order on keys, as etcd compares them. -/
def keyLt : List Nat → List Nat → Bool
  | [], [] => false
  | [], _ :: _ => true
  | _ :: _, [] => false
  | a :: as, b :: bs =>
    if a < b then true else if b < a then false else keyLt as bs

/-- Bytewise lexicographic order on keys. -/
def keyLe (a b : List Nat) : Bool := !keyLt b a

/-- One stored key-value pair of the etcd store backing the KV base. -/
structure RangeKV where
  key : List Nat
  value : List Nat
  deriving DecidableEq, Repr

/-- Model of the etcd server's reply to Get(key, WithRange(endKey),
WithLimit(limit)): the stored pairs with startK ≤ key < endK in store
order, truncated to limit entries, where limit 0 means no limit. -/
def etcdRange (store : List RangeKV) (startK endK : List Nat)
    (limit : Nat) : List RangeKV :=
  let inR := store.filter fun kv => keyLe startK kv.key && keyLt kv.key endK
  if limit == 0 then inR else inR.take limit

/-- The "/" delimiter of etcd_kv.go as a byte list. -/
def delim : List Nat := [47]

/-- strings.TrimPrefix: drop p when it is a prefix of s, else return s. -/
def trimPref (s p : List Nat) : List Nat :=
  if p.isPrefixOf s then s.drop p.length else s

/-- etcd_kv.go LoadRange (lines 55-75) on the success path: the start and
end keys are rootPath ++ "/" ++ key and rootPath ++ "/" ++ endKey; each
returned key is the stored key with the rootPath and the following
delimiter trimmed; values are returned verbatim, positionally. -/
def loadRange (root : List Nat) (store : List RangeKV)
    (key endKey : List Nat) (limit : Nat) :
    List (List Nat) × List (List Nat) :=
  let kvs := etcdRange store (root ++ delim ++ key) (root ++ delim ++ endKey) limit
  (kvs.map fun kv => trimPref (trimPref kv.key root) delim,
   kvs.map fun kv => kv.value)

/-! ## Codec lemmas -/

/-- Decoding inverts varint encoding, leaving trailing bytes untouched. -/
theorem decodeVarint_encodeVarint (n : Nat) (rest : List Nat) :
    decodeVarint (encodeVarint n ++ rest) = some (n, rest) := by
  induction n using Nat.strong_induction_on with
  | _ n ih =>
    rw [encodeVarint]
    by_cases h : n < 128
    · simp [h, decodeVarint]
    · rw [if_neg h]
      simp only [List.cons_append, decodeVarint]
      rw [if_neg (by omega), List.append_eq, ih (n / 128) (by omega)]
      simp only [Option.some.injEq, Prod.mk.injEq, and_true]
      omega

/-- Decoding inverts member encoding. -/
theorem decodeMember_encodeMember (m : MemberId) :
    decodeMember (encodeMember m) = some m := by
  obtain ⟨id, name⟩ := m
  have hv2 : decodeVarint (encodeVarint id) = some (id, []) := by
    have h := decodeVarint_encodeVarint id []
    rwa [List.append_nil] at h
  simp only [encodeMember, decodeMember, List.append_assoc]
  rw [decodeVarint_encodeVarint]
  simp [List.take_left, List.drop_left, hv2]

/-! ## Claim theorems for GetLeader, ResetLeader and the codec -/

/-- C9: serializing any member identity and deserializing the bytes as
GetLeader does yields the identical id and name, and some corrupted byte
sequence fails to deserialize, making GetLeader report InvalidLeaderValue. -/
theorem marshal_unmarshal_roundtrip :
    (∀ id name, decodeMember (encodeMember ⟨id, name⟩) = some ⟨id, name⟩) ∧
    (∃ bs, decodeMember bs = none ∧
      getLeader (.ok [⟨bs, 1⟩]) = .error .invalidLeaderValue) :=
  ⟨fun id name => decodeMember_encodeMember ⟨id, name⟩, [255], rfl, rfl⟩

/-- C4: on the success path GetLeader maps an empty read to the empty
result (no leader, zero revision, no error) and a single deserializable
pair to that member with the pair's ModRevision as the revision. -/
theorem getLeader_success_paths (reply : Except StoreErr (List EtcdKV)) :
    (reply = .ok [] → getLeader reply = .ok ⟨none, 0⟩) ∧
    (∀ kv m, reply = .ok [kv] → decodeMember kv.value = some m →
      getLeader reply = .ok ⟨some m, kv.modRevision⟩) := by
  constructor
  · rintro rfl; rfl
  · rintro kv m rfl hdec
    simp [getLeader, hdec]

/-- Witness for C4 at concrete replies. -/
theorem getLeader_success_paths_witness :
    getLeader (.ok []) = .ok ⟨none, 0⟩ ∧
    getLeader (.ok [⟨[10, 0, 16, 7], 9⟩]) = .ok ⟨some ⟨7, []⟩, 9⟩ :=
  ⟨(getLeader_success_paths (.ok [])).1 rfl,
   (getLeader_success_paths (.ok [⟨[10, 0, 16, 7], 9⟩])).2
     ⟨[10, 0, 16, 7], 9⟩ ⟨7, []⟩ rfl rfl⟩

/-- C5: GetLeader fails exactly on a store read error (GetLeaderFailed
wrapping the cause), on more than one pair (MultipleLeaders), or on a
single pair whose value fails to deserialize (InvalidLeaderValue). -/
theorem getLeader_error_paths (reply : Except StoreErr (List EtcdKV)) :
    (∀ e, reply = .error e → getLeader reply = .error (.getLeaderFailed e)) ∧
    (∀ kvs, reply = .ok kvs → 1 < kvs.length →
      getLeader reply = .error .multipleLeader) ∧
    (∀ kv, reply = .ok [kv] → decodeMember kv.value = none →
      getLeader reply = .error .invalidLeaderValue) ∧
    (∀ err, getLeader reply = .error err →
      (∃ e, reply = .error e ∧ err = .getLeaderFailed e) ∨
      (∃ kvs, reply = .ok kvs ∧ 1 < kvs.length ∧ err = .multipleLeader) ∨
      (∃ kv, reply = .ok [kv] ∧ decodeMember kv.value = none ∧
        err = .invalidLeaderValue)) := by
  refine ⟨?_, ?_, ?_, ?_⟩
  · rintro e rfl; rfl
  · rintro kvs rfl h
    simp [getLeader, h]
  · rintro kv rfl hdec
    simp [getLeader, hdec]
  · intro err h
    match reply with
    | .error e =>
      left
      refine ⟨e, rfl, ?_⟩
      simpa [getLeader] using h.symm
    | .ok kvs =>
      by_cases hlen : 1 < kvs.length
      · right; left
        refine ⟨kvs, rfl, hlen, ?_⟩
        simp only [getLeader, if_pos hlen, Except.error.injEq] at h
        exact h.symm
      · match kvs, hlen with
        | [], _ => simp [getLeader] at h
        | [kv], _ =>
          match hdec : decodeMember kv.value with
          | none =>
            right; right
            refine ⟨kv, rfl, hdec, ?_⟩
            simp only [getLeader, hdec] at h
            rw [if_neg (by simp)] at h
            exact (Except.error.inj h).symm
          | some m => simp [getLeader, hdec] at h
        | _ :: _ :: _, hlen => exact absurd (by simp) hlen

/-- Witness for C5 at concrete replies for each error kind and for the
converse direction. -/
theorem getLeader_error_paths_witness :
    getLeader (.error ⟨3⟩) = .error (.getLeaderFailed ⟨3⟩) ∧
    getLeader (.ok [⟨[255], 1⟩, ⟨[255], 2⟩]) = .error .multipleLeader ∧
    getLeader (.ok [⟨[255], 1⟩]) = .error .invalidLeaderValue ∧
    ((∃ e, (.error ⟨3⟩ : Except StoreErr (List EtcdKV)) = .error e ∧
        MemberError.getLeaderFailed ⟨3⟩ = .getLeaderFailed e) ∨
      (∃ kvs, (.error ⟨3⟩ : Except StoreErr (List EtcdKV)) = .ok kvs ∧
        1 < kvs.length ∧ MemberError.getLeaderFailed ⟨3⟩ = .multipleLeader) ∨
      (∃ kv, (.error ⟨3⟩ : Except StoreErr (List EtcdKV)) = .ok [kv] ∧
        decodeMember kv.value = none ∧
        MemberError.getLeaderFailed ⟨3⟩ = .invalidLeaderValue)) :=
  ⟨(getLeader_error_paths (.error ⟨3⟩)).1 ⟨3⟩ rfl,
   (getLeader_error_paths (.ok [⟨[255], 1⟩, ⟨[255], 2⟩])).2.1
     [⟨[255], 1⟩, ⟨[255], 2⟩] rfl (by decide),
   (getLeader_error_paths (.ok [⟨[255], 1⟩])).2.2.1 ⟨[255], 1⟩ rfl rfl,
   (getLeader_error_paths (.error ⟨3⟩)).2.2.2 (.getLeaderFailed ⟨3⟩) rfl⟩

/-- C6: ResetLeader succeeds exactly when the store delete succeeds,
including when the key was absent, deleting the key unconditionally; it
fails with ResetLeaderFailed wrapping the cause exactly when the delete
errors. -/
theorem resetLeader_spec (st : Option (List Nat)) (deleteErr : Option StoreErr) :
    (deleteErr = none → resetLeader st deleteErr = (none, .ok ())) ∧
    (∀ e, deleteErr = some e →
      resetLeader st deleteErr = (st, .error (.resetLeaderFailed e))) ∧
    (∀ err, (resetLeader st deleteErr).2 = .error err →
      ∃ e, deleteErr = some e ∧ err = .resetLeaderFailed e) := by
  refine ⟨?_, ?_, ?_⟩
  · rintro rfl; rfl
  · rintro e rfl; rfl
  · intro err h
    match deleteErr with
    | none => simp [resetLeader] at h
    | some e =>
      refine ⟨e, rfl, ?_⟩
      simp only [resetLeader, Except.error.injEq] at h
      exact h.symm

/-- Witness for C6: an absent key and a present key with a successful
delete, and a failing delete. -/
theorem resetLeader_spec_witness :
    resetLeader none none = (none, .ok ()) ∧
    resetLeader (some [1]) none = (none, .ok ()) ∧
    resetLeader none (some ⟨4⟩) = (none, .error (.resetLeaderFailed ⟨4⟩)) ∧
    (∃ e, (some ⟨4⟩ : Option StoreErr) = some e ∧
      MemberError.resetLeaderFailed ⟨4⟩ = .resetLeaderFailed e) :=
  ⟨(resetLeader_spec none none).1 rfl,
   (resetLeader_spec (some [1]) none).1 rfl,
   (resetLeader_spec none (some ⟨4⟩)).2.1 ⟨4⟩ rfl,
   (resetLeader_spec none (some ⟨4⟩)).2.2 (.resetLeaderFailed ⟨4⟩) rfl⟩

/-! ## Claim theorems for CampaignAndKeepLeader -/

/-- C3: when the campaign transaction errors or commits unsucceeded, the
lease Close is attempted before the return, the call fails with
TxnPutLeaderFailed wrapping the cause, and a lease-close failure never
replaces that error (the outcome is the same for every close reply). -/
theorem campaign_txn_failure_closes_lease (m : MemberCfg) (ttl : Int)
    (env : CampaignEnv) (hg : env.grantErr = none) :
    (∀ e, env.txnReply = .error e →
      campaignAndKeepLeader m ttl env =
        (.failed (.txnPutLeader (some e)),
         [.leaseGrant ttl, .txn (campaignReq m env.leaseId),
          .leaseCloseAttempt])) ∧
    (env.txnReply = .ok false →
      campaignAndKeepLeader m ttl env =
        (.failed (.txnPutLeader none),
         [.leaseGrant ttl, .txn (campaignReq m env.leaseId),
          .leaseCloseAttempt])) ∧
    (∀ c, (campaignAndKeepLeader m ttl { env with closeErr := c }).1 =
      (campaignAndKeepLeader m ttl env).1) := by
  obtain ⟨ge, li, tr, ce, le⟩ := env
  subst hg
  refine ⟨?_, ?_, ?_⟩
  · rintro e rfl; rfl
  · rintro rfl; rfl
  · intro c
    rcases tr with e | b
    · rfl
    · cases b <;> rfl

/-- Witness for C3 at concrete environments: a transaction error and a
failed condition, under an arbitrary close failure. -/
theorem campaign_txn_failure_closes_lease_witness :
    campaignAndKeepLeader ⟨1, [97], "r"⟩ 5 ⟨none, 2, .error ⟨7⟩, some ⟨8⟩, []⟩ =
      (.failed (.txnPutLeader (some ⟨7⟩)),
       [.leaseGrant 5, .txn (campaignReq ⟨1, [97], "r"⟩ 2),
        .leaseCloseAttempt]) ∧
    campaignAndKeepLeader ⟨1, [97], "r"⟩ 5 ⟨none, 2, .ok false, some ⟨8⟩, []⟩ =
      (.failed (.txnPutLeader none),
       [.leaseGrant 5, .txn (campaignReq ⟨1, [97], "r"⟩ 2),
        .leaseCloseAttempt]) ∧
    (campaignAndKeepLeader ⟨1, [97], "r"⟩ 5
        { (⟨none, 2, .ok false, some ⟨8⟩, []⟩ : CampaignEnv) with
          closeErr := none }).1 =
      (campaignAndKeepLeader ⟨1, [97], "r"⟩ 5 ⟨none, 2, .ok false, some ⟨8⟩, []⟩).1 :=
  ⟨(campaign_txn_failure_closes_lease ⟨1, [97], "r"⟩ 5
      ⟨none, 2, .error ⟨7⟩, some ⟨8⟩, []⟩ rfl).1 ⟨7⟩ rfl,
   (campaign_txn_failure_closes_lease ⟨1, [97], "r"⟩ 5
      ⟨none, 2, .ok false, some ⟨8⟩, []⟩ rfl).2.1 rfl,
   (campaign_txn_failure_closes_lease ⟨1, [97], "r"⟩ 5
      ⟨none, 2, .ok false, some ⟨8⟩, []⟩ rfl).2.2 none⟩

/-- C8: after a won campaign, every exit of the monitoring loop returns a
nil error (the outcome is a plain return carrying no MemberError), and no
lease Close is attempted on the winning path, so on caller cancellation
the lease is left to expire via its TTL. -/
theorem campaign_loop_exit_nil (m : MemberCfg) (ttl : Int) (env : CampaignEnv)
    (hg : env.grantErr = none) (ht : env.txnReply = .ok true) :
    (∀ r, keepLeaderLoop m.id env.loopEvents = some r →
      campaignAndKeepLeader m ttl env =
        (.returnedNil r,
         [.leaseGrant ttl, .txn (campaignReq m env.leaseId),
          .keepAliveStart])) ∧
    Effect.leaseCloseAttempt ∉ (campaignAndKeepLeader m ttl env).2 := by
  obtain ⟨ge, li, tr, ce, le⟩ := env
  subst hg
  cases ht
  constructor
  · intro r hr
    simp only [campaignAndKeepLeader]
    rw [hr]
  · simp only [campaignAndKeepLeader]
    cases keepLeaderLoop m.id le <;> simp

/-- Witness for C8: a caller cancellation exits the loop with a nil error
and no lease close on the trace. -/
theorem campaign_loop_exit_nil_witness :
    campaignAndKeepLeader ⟨1, [97], "r"⟩ 5
        ⟨none, 2, .ok true, none, [.ctxDone .callerCanceled]⟩ =
      (.returnedNil (.ctxEnded .callerCanceled),
       [.leaseGrant 5, .txn (campaignReq ⟨1, [97], "r"⟩ 2),
        .keepAliveStart]) ∧
    Effect.leaseCloseAttempt ∉
      (campaignAndKeepLeader ⟨1, [97], "r"⟩ 5
        ⟨none, 2, .ok true, none, [.ctxDone .callerCanceled]⟩).2 :=
  ⟨(campaign_loop_exit_nil ⟨1, [97], "r"⟩ 5
      ⟨none, 2, .ok true, none, [.ctxDone .callerCanceled]⟩ rfl rfl).1
      (.ctxEnded .callerCanceled) rfl,
   (campaign_loop_exit_nil ⟨1, [97], "r"⟩ 5
      ⟨none, 2, .ok true, none, [.ctxDone .callerCanceled]⟩ rfl rfl).2⟩

/-- C1 evaluated at the failing input: the monitoring loop's select listens
on the context built by context.WithTimeout(ctx, m.rpcTimeout) at
member.go line 138, so when the rpcTimeout deadline elapses the call
returns even though the lease's liveness flag was never observed false,
the store's own leader never moved, and the caller never canceled: the
event list holds only the deadline firing. -/
theorem campaign_returns_on_rpcTimeout_without_caller_cancel :
    (campaignAndKeepLeader ⟨1, [97], "r"⟩ 5
      ⟨none, 2, .ok true, none, [.ctxDone .rpcTimeoutExceeded]⟩).1 =
      .returnedNil (.ctxEnded .rpcTimeoutExceeded) ∧
    (⟨none, 2, .ok true, none,
      [.ctxDone .rpcTimeoutExceeded]⟩ : CampaignEnv).loopEvents =
      [.ctxDone .rpcTimeoutExceeded] :=
  ⟨rfl, rfl⟩

/-! ## Claim theorem for WaitForLeaderChange -/

/-- C7: WaitForLeaderChange reports no error (every outcome is one of the
four plain returns), on a compaction notice at the head of a stream it
rewatches from the reported compact revision when the context is not done,
and given a compaction notice followed by a delete event it returns
exactly once, after the delete: with fuel for only the compaction stream
it is still waiting, with the next stream it returns leaderDeleted. -/
theorem waitForLeaderChange_compaction_behavior :
    (∀ fuel wch ctxDone i rev,
      waitForLeaderChange fuel wch ctxDone i rev = .leaderDeleted ∨
      waitForLeaderChange fuel wch ctxDone i rev = .watchCanceled ∨
      waitForLeaderChange fuel wch ctxDone i rev = .ctxCanceled ∨
      waitForLeaderChange fuel wch ctxDone i rev = .stillWaiting) ∧
    (∀ fuel wch ctxDone i rev (r : WatchResp) rest,
      wch i rev = r :: rest → r.compactRevision ≠ 0 → ctxDone i = false →
      waitForLeaderChange (fuel + 1) wch ctxDone i rev =
        waitForLeaderChange fuel wch ctxDone (i + 1) r.compactRevision) ∧
    (waitForLeaderChange 1
        (fun i _ => if i = 0 then [⟨5, false, []⟩] else [⟨0, false, [.del]⟩])
        (fun _ => false) 0 0 = .stillWaiting ∧
      waitForLeaderChange 2
        (fun i _ => if i = 0 then [⟨5, false, []⟩] else [⟨0, false, [.del]⟩])
        (fun _ => false) 0 0 = .leaderDeleted) := by
  refine ⟨?_, ?_, rfl, rfl⟩
  · intro fuel wch ctxDone i rev
    cases waitForLeaderChange fuel wch ctxDone i rev <;> simp
  · intro fuel wch ctxDone i rev r rest hw hc hd
    simp only [waitForLeaderChange, hw, processStream, if_pos hc, hd]
    simp

/-- Witness for C7: the restart equation applied at the concrete
compaction-then-delete environment, together with the enumeration of
outcomes at it. -/
theorem waitForLeaderChange_compaction_behavior_witness :
    waitForLeaderChange 1
        (fun i _ => if i = 0 then [⟨5, false, []⟩] else [⟨0, false, [.del]⟩])
        (fun _ => false) 0 0 =
      waitForLeaderChange 0
        (fun i _ => if i = 0 then [⟨5, false, []⟩] else [⟨0, false, [.del]⟩])
        (fun _ => false) 1 5 ∧
    (waitForLeaderChange 2
        (fun i _ => if i = 0 then [⟨5, false, []⟩] else [⟨0, false, [.del]⟩])
        (fun _ => false) 0 0 = .leaderDeleted ∨
      waitForLeaderChange 2
        (fun i _ => if i = 0 then [⟨5, false, []⟩] else [⟨0, false, [.del]⟩])
        (fun _ => false) 0 0 = .watchCanceled ∨
      waitForLeaderChange 2
        (fun i _ => if i = 0 then [⟨5, false, []⟩] else [⟨0, false, [.del]⟩])
        (fun _ => false) 0 0 = .ctxCanceled ∨
      waitForLeaderChange 2
        (fun i _ => if i = 0 then [⟨5, false, []⟩] else [⟨0, false, [.del]⟩])
        (fun _ => false) 0 0 = .stillWaiting) :=
  ⟨waitForLeaderChange_compaction_behavior.2.1 0
      (fun i _ => if i = 0 then [⟨5, false, []⟩] else [⟨0, false, [.del]⟩])
      (fun _ => false) 0 0 ⟨5, false, []⟩ [] rfl (by decide) rfl,
   waitForLeaderChange_compaction_behavior.1 2
      (fun i _ => if i = 0 then [⟨5, false, []⟩] else [⟨0, false, [.del]⟩])
      (fun _ => false) 0 0⟩

/-! ## Serialization lemmas for racing campaigns -/

/-- Once the leader key exists with a non-zero CreateRevision, every
campaign-shaped transaction fails and leaves the store unchanged. -/
theorem runTxns_all_fail (txns : List TxnRequest) : ∀ (st : LeaderStore),
    (∀ t ∈ txns, isCampaignTxn t = true) →
    (∀ v cr, st.value = some (v, cr) → cr ≠ 0) →
    (∃ v cr, st.value = some (v, cr)) →
    (runTxns st txns).count true = 0 := by
  induction txns with
  | nil => intro st _ _ _; rfl
  | cons t ts ih =>
    intro st hall hcr ⟨v, cr, hv⟩
    obtain ⟨cond, ops⟩ := t
    have hc := hall ⟨cond, ops⟩ (by simp)
    obtain ⟨k, r⟩ := cond
    simp only [isCampaignTxn, Bool.and_eq_true, beq_iff_eq] at hc
    have hfail : condHolds st (.createRevisionEq k r) = false := by
      simp only [condHolds, hv, hc.1, beq_eq_false_iff_ne, ne_eq]
      exact hcr v cr hv
    simp only [runTxns, applyTxn, hfail, Bool.false_eq_true, if_false,
      List.count_cons]
    rw [ih st (fun u hu => hall u (by simp [hu])) hcr ⟨v, cr, hv⟩]
    simp

/-- Applying a non-empty list of puts yields a stored value whose
CreateRevision is at least the store's previous next revision. -/
theorem applyOps_sets : ∀ (ops : List TxnOp) (st : LeaderStore),
    ops ≠ [] → 1 ≤ st.nextRev →
    (∃ v cr, (applyOps st ops).value = some (v, cr) ∧ 1 ≤ cr) := by
  intro ops
  induction ops with
  | nil => intro st h _; exact absurd rfl h
  | cons op tl ih =>
    intro st _ h1
    obtain ⟨k, v, l⟩ := op
    match tl with
    | [] => exact ⟨v, st.nextRev, rfl, h1⟩
    | op2 :: tl2 =>
      have step : applyOps st (.put k v l :: op2 :: tl2) =
          applyOps ⟨some (v, st.nextRev), st.nextRev + 1⟩ (op2 :: tl2) := rfl
      rw [step]
      exact ih ⟨some (v, st.nextRev), st.nextRev + 1⟩ (by simp)
        (by show 1 ≤ st.nextRev + 1; omega)

/-- Starting from an empty leader key, a serialized list of
campaign-shaped transactions commits at most one success. -/
theorem runTxns_at_most_one_success (st : LeaderStore) (txns : List TxnRequest)
    (hempty : st.value = none) (hrev : 1 ≤ st.nextRev)
    (hall : ∀ t ∈ txns, isCampaignTxn t = true) :
    (runTxns st txns).count true ≤ 1 := by
  match txns with
  | [] => simp [runTxns]
  | t :: ts =>
    obtain ⟨cond, ops⟩ := t
    have hc := hall ⟨cond, ops⟩ (by simp)
    obtain ⟨k, r⟩ := cond
    simp only [isCampaignTxn, Bool.and_eq_true, beq_iff_eq,
      Bool.not_eq_true', List.isEmpty_eq_false] at hc
    have hok : condHolds st (.createRevisionEq k r) = true := by
      simp [condHolds, hempty, hc.1]
    simp only [runTxns, applyTxn, hok, if_true, List.count_cons]
    obtain ⟨v, cr, hv, hcr⟩ := applyOps_sets ops st hc.2 hrev
    rw [runTxns_all_fail ts (applyOps st ops)
      (fun u hu => hall u (by simp [hu]))
      (fun v' cr' hv' => by
        rw [hv] at hv'
        obtain ⟨rfl, rfl⟩ := Prod.mk.injEq .. ▸ Option.some.inj hv'
        omega)
      ⟨v, cr, hv⟩]
    simp

/-- C2: the campaign path issues exactly one write to the leader key when
the grant succeeds, the single conditional transaction gated on
CreateRevision 0 putting the serialized identity under the granted lease;
no write at all when the grant fails; and a serialized list of such
transactions against an initially absent key commits at most one
success. -/
theorem campaign_single_conditional_write (m : MemberCfg) (ttl : Int)
    (env : CampaignEnv) :
    (env.grantErr = none →
      writeEffects (campaignAndKeepLeader m ttl env).2 =
        [.txn ⟨.createRevisionEq (formatLeaderKey m.rootPath) 0,
          [.put (formatLeaderKey m.rootPath) (encodeMember ⟨m.id, m.name⟩)
            env.leaseId]⟩]) ∧
    (env.grantErr ≠ none →
      writeEffects (campaignAndKeepLeader m ttl env).2 = []) ∧
    (∀ st txns, st.value = none → 1 ≤ st.nextRev →
      (∀ t ∈ txns, isCampaignTxn t = true) →
      (runTxns st txns).count true ≤ 1) := by
  obtain ⟨ge, li, tr, ce, le⟩ := env
  refine ⟨?_, ?_, fun st txns h1 h2 h3 =>
    runTxns_at_most_one_success st txns h1 h2 h3⟩
  · rintro rfl
    rcases tr with e | b
    · rfl
    · cases b
      · rfl
      · simp only [campaignAndKeepLeader]
        cases keepLeaderLoop m.id le <;> rfl
  · intro hne
    rcases ge with _ | e
    · exact absurd rfl hne
    · rfl

/-- Witness for C2: the write list of a concrete losing campaign, of a
concrete failed grant, and two racing transactions with one success. -/
theorem campaign_single_conditional_write_witness :
    writeEffects (campaignAndKeepLeader ⟨1, [97], "r"⟩ 5
        ⟨none, 2, .ok false, none, []⟩).2 =
      [.txn ⟨.createRevisionEq (formatLeaderKey "r") 0,
        [.put (formatLeaderKey "r") (encodeMember ⟨1, [97]⟩) 2]⟩] ∧
    writeEffects (campaignAndKeepLeader ⟨1, [97], "r"⟩ 5
        ⟨some ⟨9⟩, 2, .ok false, none, []⟩).2 = [] ∧
    (runTxns ⟨none, 1⟩
        [⟨.createRevisionEq "k" 0, [.put "k" [] 0]⟩,
         ⟨.createRevisionEq "k" 0, [.put "k" [] 0]⟩]).count true ≤ 1 :=
  ⟨(campaign_single_conditional_write ⟨1, [97], "r"⟩ 5
      ⟨none, 2, .ok false, none, []⟩).1 rfl,
   (campaign_single_conditional_write ⟨1, [97], "r"⟩ 5
      ⟨some ⟨9⟩, 2, .ok false, none, []⟩).2.1 (by simp),
   (campaign_single_conditional_write ⟨1, [97], "r"⟩ 5
      ⟨none, 2, .ok false, none, []⟩).2.2 ⟨none, 1⟩ _ rfl (by norm_num)
      (by decide)⟩

/-! ## LoadRange lemmas -/

/-- Any key lying bytewise between two keys that share a common prefix
itself starts with that prefix. -/
theorem key_between_has_root (p : List Nat) :
    ∀ (x y s : List Nat), keyLt s (p ++ x) = false → keyLt s (p ++ y) = true →
      ∃ t, s = p ++ t := by
  induction p with
  | nil => exact fun x y s _ _ => ⟨s, rfl⟩
  | cons a p ih =>
    intro x y s h1 h2
    match s with
    | [] => simp [keyLt] at h1
    | b :: s' =>
      rw [List.cons_append] at h1 h2
      simp only [keyLt] at h1 h2
      by_cases hba : b < a
      · rw [if_pos hba] at h1
        exact absurd h1 (by simp)
      · rw [if_neg hba] at h1 h2
        by_cases hab : a < b
        · rw [if_pos hab] at h2
          exact absurd h2 (by simp)
        · rw [if_neg hab] at h1 h2
          obtain ⟨t, ht⟩ := ih x y s' h1 h2
          have hab2 : b = a := by omega
          exact ⟨t, by rw [ht, hab2, List.cons_append]⟩

/-- Trimming the root path and then the delimiter undoes prepending
them. -/
theorem trimPref_root_delim (root t : List Nat) :
    trimPref (trimPref (root ++ delim ++ t) root) delim = t := by
  have h1 : root.isPrefixOf (root ++ delim ++ t) = true := by
    rw [ List.isPrefixOf_iff_prefix, List.append_assoc]
    exact List.prefix_append ..
  have hinner : trimPref (root ++ delim ++ t) root = delim ++ t := by
    rw [trimPref, if_pos h1, List.append_assoc, List.drop_left]
  rw [hinner]
  have h2 : delim.isPrefixOf (delim ++ t) = true := by
    rw [ List.isPrefixOf_iff_prefix]
    exact List.prefix_append ..
  rw [trimPref, if_pos h2, List.drop_left]

/-- C10 (amended): LoadRange returns keys and values of equal length that
match positionally, each returned key being the stored key with the root
path and the following delimiter stripped, and when the limit is positive
at most limit entries are returned. -/
theorem loadRange_correct (root : List Nat) (store : List RangeKV)
    (key endKey : List Nat) (limit : Nat) :
    (loadRange root store key endKey limit).1.length =
      (loadRange root store key endKey limit).2.length ∧
    (∀ p ∈ (loadRange root store key endKey limit).1.zip
        (loadRange root store key endKey limit).2,
      ∃ kv, kv ∈ store ∧ kv.key = root ++ delim ++ p.1 ∧ kv.value = p.2) ∧
    (0 < limit → (loadRange root store key endKey limit).1.length ≤ limit) := by
  refine ⟨by simp [loadRange], ?_, ?_⟩
  · intro p hp
    simp only [loadRange] at hp
    rw [List.zip_map'] at hp
    obtain ⟨kv, hkv, hpeq⟩ := List.mem_map.mp hp
    have hmem : kv ∈ store.filter fun kv =>
        keyLe (root ++ delim ++ key) kv.key &&
        keyLt kv.key (root ++ delim ++ endKey) := by
      simp only [etcdRange] at hkv
      by_cases hl : (limit == 0) = true
      · rwa [if_pos hl] at hkv
      · rw [if_neg hl] at hkv
        exact List.take_subset _ _ hkv
    obtain ⟨hstore, hcond⟩ := List.mem_filter.mp hmem
    rw [Bool.and_eq_true] at hcond
    have h1 : keyLt kv.key (root ++ delim ++ key) = false := by
      have hh := hcond.1
      rw [keyLe, Bool.not_eq_true'] at hh
      exact hh
    obtain ⟨t, ht⟩ :=
      key_between_has_root (root ++ delim) key endKey kv.key h1 hcond.2
    refine ⟨kv, hstore, ?_, ?_⟩
    · rw [← hpeq]
      simp only
      rw [ht, trimPref_root_delim]
    · rw [← hpeq]
  · intro hl
    simp only [loadRange, etcdRange]
    rw [if_neg (by simp; omega)]
    simp only [List.length_map]
    exact List.length_take_le ..

/-- Witness for C10 at a concrete store with root "r", range from key "a"
to "b" and limit 1: one matching pair, returned relative to the root. -/
theorem loadRange_correct_witness :
    (loadRange [114] [⟨[114, 47, 97], [5]⟩] [97] [98] 1).1.length =
      (loadRange [114] [⟨[114, 47, 97], [5]⟩] [97] [98] 1).2.length ∧
    (∃ kv, kv ∈ [(⟨[114, 47, 97], [5]⟩ : RangeKV)] ∧
      kv.key = [114] ++ delim ++ [97] ∧ kv.value = [5]) ∧
    (loadRange [114] [⟨[114, 47, 97], [5]⟩] [97] [98] 1).1.length ≤ 1 :=
  ⟨(loadRange_correct [114] [⟨[114, 47, 97], [5]⟩] [97] [98] 1).1,
   (loadRange_correct [114] [⟨[114, 47, 97], [5]⟩] [97] [98] 1).2.1
     ([97], [5]) (by decide),
   (loadRange_correct [114] [⟨[114, 47, 97], [5]⟩] [97] [98] 1).2.2
     (by decide)⟩

/-- C10 counterexample: with limit 0, etcd's WithLimit means no limit, so
LoadRange returns one entry although the claim as stated would allow at
most zero. -/
theorem loadRange_limit_zero_counterexample :
    (loadRange [114] [⟨[114, 47, 97], [5]⟩] [97] [98] 0).1.length = 1 ∧
    decide ((loadRange [114] [⟨[114, 47, 97], [5]⟩] [97] [98] 0).1.length ≤ 0)
      = false := ⟨rfl, rfl⟩

end CeresMeta
